import Mathlib

/-!
Verification of the core logic of the bds-jira-mcp service layer
(`src/services/jira.ts`): the markdown-to-JIRA-markup transcoder
`formatJiraText`, the story status inference (`analyzeStoryStatus`,
`updateStoryStatusBasedOnTasks`, `updateAllStoryStatuses`) and the
hierarchy validator (`validateProjectStructure`).

The embedding follows the current revision of `jira.ts` (the one importing
`utils/errorHandler.ts`, whose `formatJiraText` is the rewritten pipeline
without italic conversion).  Each JavaScript regex-replace pass is embedded
as an executable character-list scanner with the same left-to-right,
non-overlapping match semantics; fuel arguments equal to the list length
make the scanners structurally recursive, and one unit of fuel is spent per
character consumed, so the fuel never runs out.
-/

namespace Jira

/-- Splits a character list at newline characters, mirroring the semantics
of the JavaScript `m` (multiline) regex flag: `^` matches at the start of
every line and `$` at its end. -/
def splitNl : List Char → List (List Char)
  | [] => [[]]
  | c :: cs =>
    if c = '\n' then [] :: splitNl cs
    else
      match splitNl cs with
      | [] => [[c]]
      | g :: gs => (c :: g) :: gs

/-- Joins lines back with newline separators; inverse of `splitNl`. -/
def joinNl : List (List Char) → List Char
  | [] => []
  | [l] => l
  | l :: ls => l ++ '\n' :: joinNl ls

/-- Applies a per-line rewrite to the whole text.  Faithful for the
line-anchored replace passes of `formatJiraText`, whose patterns cannot
span a newline and whose replacements introduce none. -/
def applyLinewise (f : List Char → List Char) (l : List Char) : List Char :=
  joinNl ((splitNl l).map f)

/-- Line pass for `result.replace(/^# (.+)$/gm, 'h1. $1')`. -/
def h1Line : List Char → List Char
  | '#' :: ' ' :: rest =>
    if rest.isEmpty then '#' :: ' ' :: rest else 'h' :: '1' :: '.' :: ' ' :: rest
  | l => l

/-- Line pass for `result.replace(/^## (.+)$/gm, 'h2. $1')`. -/
def h2Line : List Char → List Char
  | '#' :: '#' :: ' ' :: rest =>
    if rest.isEmpty then '#' :: '#' :: ' ' :: rest else 'h' :: '2' :: '.' :: ' ' :: rest
  | l => l

/-- Line pass for `result.replace(/^### (.+)$/gm, 'h3. $1')`. -/
def h3Line : List Char → List Char
  | '#' :: '#' :: '#' :: ' ' :: rest =>
    if rest.isEmpty then '#' :: '#' :: '#' :: ' ' :: rest
    else 'h' :: '3' :: '.' :: ' ' :: rest
  | l => l

/-- Line pass for `result.replace(/^- (.+)$/gm, '* $1')`. -/
def listLine : List Char → List Char
  | '-' :: ' ' :: rest =>
    if rest.isEmpty then '-' :: ' ' :: rest else '*' :: ' ' :: rest
  | l => l

/-- The JavaScript word-character class `[\w]` is `[A-Za-z0-9_]`. -/
def isWordChar (c : Char) : Bool := c.isAlphanum || c == '_'

/-- Searches for the lazy close of a bold span: the group `(.+?)` grows one
non-newline character at a time and after every character the engine tries
the literal close.  Returns the enclosed span and the text after the
closing pair of asterisks, or `none` when the attempt fails. -/
def findCloseB : List Char → Option (List Char × List Char)
  | [] => none
  | c :: cs =>
    if c = '\n' then none
    else
      match cs with
      | '*' :: '*' :: rest => some ([c], rest)
      | _ => (findCloseB cs).map (fun p => (c :: p.1, p.2))

/-- Scanner for `result.replace(/\*\*(.+?)\*\*/g, '*$1*')`.  On a failed
match attempt the regex engine advances one character, exactly as the
fallback branch does. -/
def boldGo : Nat → List Char → List Char
  | 0, l => l
  | _ + 1, [] => []
  | n + 1, '*' :: '*' :: cs =>
    (match findCloseB cs with
     | some (span, rest) => '*' :: (span ++ '*' :: boldGo n rest)
     | none => '*' :: boldGo n ('*' :: cs))
  | n + 1, c :: cs => c :: boldGo n cs

/-- Searches for the lazy close of a fenced code block: the group
`([\s\S]*?)` grows from the empty string and after every character the
engine tries `\n?` (greedily) followed by the closing fence. -/
def findCloseC : List Char → Option (List Char × List Char)
  | '\n' :: '\x60' :: '\x60' :: '\x60' :: rest => some ([], rest)
  | '\x60' :: '\x60' :: '\x60' :: rest => some ([], rest)
  | c :: cs => (findCloseC cs).map (fun p => (c :: p.1, p.2))
  | [] => none

/-- Consumes the greedy language tag `[\w]*` and the optional newline
`\n?` that follow the opening fence. -/
def dropTagNl (cs : List Char) : List Char :=
  match cs.dropWhile isWordChar with
  | '\n' :: r => r
  | cs1 => cs1

/-- The replacement marker `{code}` of the fenced-code pass. -/
def codeMark : List Char := ['\x7b', 'c', 'o', 'd', 'e', '\x7d']

/-- Scanner for
`result.replace(/\x60\x60\x60[\w]*\n?([\s\S]*?)\n?\x60\x60\x60/g, '{code}$1{code}')`
(the fences are triple backticks).  The language tag is dropped and the
enclosed span is emitted between two plain `{code}` markers. -/
def codeGo : Nat → List Char → List Char
  | 0, l => l
  | _ + 1, [] => []
  | n + 1, '\x60' :: '\x60' :: '\x60' :: cs =>
    (match findCloseC (dropTagNl cs) with
     | some (span, rest) => codeMark ++ span ++ codeMark ++ codeGo n rest
     | none => '\x60' :: codeGo n ('\x60' :: '\x60' :: cs))
  | n + 1, c :: cs => c :: codeGo n cs

/-- Scanner for the inline-code pass turning single-backtick spans into
double-curly-brace spans; the class excluding the backtick makes the
greedy group unambiguous. -/
def inlineGo : Nat → List Char → List Char
  | 0, l => l
  | _ + 1, [] => []
  | n + 1, '\x60' :: cs =>
    (match cs.takeWhile (fun c => !(c == '\x60')), cs.dropWhile (fun c => !(c == '\x60')) with
     | s :: span, '\x60' :: r =>
       '\x7b' :: '\x7b' :: ((s :: span) ++ '\x7d' :: '\x7d' :: inlineGo n r)
     | _, _ => '\x60' :: inlineGo n cs)
  | n + 1, c :: cs => c :: inlineGo n cs

/-- Scanner for the link pass `[label](url)` to `[label|url]`; each
character class excludes only its own closing delimiter. -/
def linkGo : Nat → List Char → List Char
  | 0, l => l
  | _ + 1, [] => []
  | n + 1, '[' :: cs =>
    (match cs.takeWhile (fun c => !(c == ']')), cs.dropWhile (fun c => !(c == ']')) with
     | a :: label, ']' :: '(' :: cs2 =>
       (match cs2.takeWhile (fun c => !(c == ')')), cs2.dropWhile (fun c => !(c == ')')) with
        | u :: url, ')' :: r =>
          '[' :: ((a :: label) ++ '|' :: ((u :: url) ++ ']' :: linkGo n r))
        | _, _ => '[' :: linkGo n cs)
     | _, _ => '[' :: linkGo n cs)
  | n + 1, c :: cs => c :: linkGo n cs

/-- `JiraService.formatJiraText`, the rewritten markdown-to-JIRA transcoder:
headers, bold, fenced code, inline code, links, lists — in the source's
order, each pass running over the previous pass's output.  Italic is not
converted. -/
def formatJiraText (text : String) : String :=
  let l1 := applyLinewise h1Line text.data
  let l2 := applyLinewise h2Line l1
  let l3 := applyLinewise h3Line l2
  let l4 := boldGo l3.length l3
  let l5 := codeGo l4.length l4
  let l6 := inlineGo l5.length l5
  let l7 := linkGo l6.length l6
  let l8 := applyLinewise listLine l7
  String.mk l8

/-- The four-bucket child summary computed by `analyzeStoryStatus`: total
number of related tasks and the counts of tasks whose status name is
exactly `Done`, `In Progress` or `To Do`. -/
structure TasksSummary where
  total : Nat
  done : Nat
  inProgress : Nat
  toDo : Nat
deriving Repr, DecidableEq

/-- The `tasksSummary` object literal of `analyzeStoryStatus`, over the
status names of the related tasks. -/
def mkTasksSummary (taskStatuses : List String) : TasksSummary :=
  { total := taskStatuses.length
    done := (taskStatuses.filter (fun s => s == "Done")).length
    inProgress := (taskStatuses.filter (fun s => s == "In Progress")).length
    toDo := (taskStatuses.filter (fun s => s == "To Do")).length }

/-- `shouldBeDone = tasksSummary.total > 0 && tasksSummary.done === tasksSummary.total`. -/
def shouldBeDone (s : TasksSummary) : Bool :=
  decide (0 < s.total) && (s.done == s.total)

/-- `shouldBeInProgress = !shouldBeDone && (tasksSummary.inProgress > 0 || tasksSummary.done > 0)`. -/
def shouldBeInProgress (s : TasksSummary) : Bool :=
  !(shouldBeDone s) && (decide (0 < s.inProgress) || decide (0 < s.done))

/-- The analysis record returned by `analyzeStoryStatus` (the fetched
`story` and `relatedTasks` objects are omitted; only the fields the
status logic reads are kept). -/
structure StoryAnalysis where
  currentStatus : String
  tasksSummary : TasksSummary
  shouldBeDone : Bool
  shouldBeInProgress : Bool
deriving Repr, DecidableEq

/-- `analyzeStoryStatus`, as a function of the story's current status name
and the status names of its related Task children. -/
def analyzeStoryStatus (currentStatus : String) (taskStatuses : List String) :
    StoryAnalysis :=
  let s := mkTasksSummary taskStatuses
  { currentStatus := currentStatus
    tasksSummary := s
    shouldBeDone := shouldBeDone s
    shouldBeInProgress := shouldBeInProgress s }

/-- The `targetStatus` / `transitionId` / `reason` triple assigned by the
if/else-if chain of `updateStoryStatusBasedOnTasks`. -/
structure TransitionRec where
  targetStatus : String
  transitionId : String
  reason : String
deriving Repr, DecidableEq

/-- The transition-determination chain of `updateStoryStatusBasedOnTasks`:
`none` models the state where `transitionId` stays `null`. -/
def determineTransition (currentStatus : String) (s : TasksSummary) :
    Option TransitionRec :=
  if shouldBeDone s && !(currentStatus == "Done") then
    some { targetStatus := "Done", transitionId := "31"
           reason := "All " ++ toString s.total ++ " related tasks are completed" }
  else if shouldBeInProgress s && (currentStatus == "To Do") then
    some { targetStatus := "In Progress", transitionId := "21"
           reason := toString (s.inProgress + s.done) ++ " of " ++ toString s.total
                     ++ " tasks are started/completed" }
  else
    none

/-- The audit-comment template posted by `updateStoryStatusBasedOnTasks`
when a transition is applied. -/
def buildComment (currentStatus targetStatus reason : String)
    (s : TasksSummary) : String :=
  "Story Status Updated Automatically\n\n*Previous Status:* " ++ currentStatus
    ++ "\n*New Status:* " ++ targetStatus
    ++ "\n*Reason:* " ++ reason
    ++ "\n\n*Task Summary:*\n* Total Tasks: " ++ toString s.total
    ++ "\n* Done: " ++ toString s.done
    ++ "\n* In Progress: " ++ toString s.inProgress
    ++ "\n* To Do: " ++ toString s.toDo
    ++ "\n\nStatus updated automatically based on related task completion."

/-- The result record returned by `updateStoryStatusBasedOnTasks`. -/
structure UpdateResult where
  updated : Bool
  oldStatus : String
  newStatus : String
  reason : String
deriving Repr, DecidableEq

/-- The externally visible calls `updateStoryStatusBasedOnTasks` can make
after its analysis: a workflow transition and a posted comment. -/
inductive JiraAction where
  | transition (storyKey transitionId : String)
  | comment (storyKey body : String)
deriving Repr, DecidableEq

/-- `updateStoryStatusBasedOnTasks`, as a function of the story's current
status and its related-task statuses; the second component records the
external calls performed, in order. -/
def updateStoryStatusBasedOnTasks (storyKey currentStatus : String)
    (taskStatuses : List String) : UpdateResult × List JiraAction :=
  let s := mkTasksSummary taskStatuses
  match determineTransition currentStatus s with
  | some t =>
    if !(t.targetStatus == currentStatus) then
      ({ updated := true, oldStatus := currentStatus
         newStatus := t.targetStatus, reason := t.reason },
       [JiraAction.transition storyKey t.transitionId,
        JiraAction.comment storyKey
          (buildComment currentStatus t.targetStatus t.reason s)])
    else
      ({ updated := false, oldStatus := currentStatus
         newStatus := currentStatus, reason := "No status change needed" }, [])
  | none =>
    ({ updated := false, oldStatus := currentStatus
       newStatus := currentStatus, reason := "No status change needed" }, [])

/-- A fetched issue, reduced to the fields the batch and validation logic
read: its key and its issue-type name. -/
structure Issue where
  key : String
  issuetype : String
deriving Repr, DecidableEq

/-- One entry of the `updates` array of `updateAllStoryStatuses`. -/
structure StoryUpdateEntry where
  storyKey : String
  oldStatus : String
  newStatus : String
  reason : String
deriving Repr, DecidableEq

/-- The record returned by `updateAllStoryStatuses`. -/
structure BatchResult where
  storiesChecked : Nat
  storiesUpdated : Nat
  updates : List StoryUpdateEntry
deriving Repr, DecidableEq

/-- One iteration of the `for (const story of stories)` loop of
`updateAllStoryStatuses`: a throwing per-story call (`Except.error`) is
caught and skipped; a successful call with `updated` pushes an entry and
increments the counter. -/
def batchStep (perStory : Issue → Except Unit UpdateResult)
    (acc : Nat × List StoryUpdateEntry) (story : Issue) :
    Nat × List StoryUpdateEntry :=
  match perStory story with
  | Except.ok r =>
    if r.updated then
      (acc.1 + 1,
       acc.2 ++ [{ storyKey := story.key, oldStatus := r.oldStatus
                   newStatus := r.newStatus, reason := r.reason }])
    else acc
  | Except.error _ => acc

/-- `updateAllStoryStatuses`: filters the epic's issues to Story type and
runs the per-story update over each, skipping per-story failures. -/
def updateAllStoryStatuses (perStory : Issue → Except Unit UpdateResult)
    (epicIssues : List Issue) : BatchResult :=
  let stories := epicIssues.filter (fun i => i.issuetype == "Story")
  let acc := stories.foldl (batchStep perStory) (0, [])
  { storiesChecked := stories.length
    storiesUpdated := acc.1
    updates := acc.2 }

/-- The entry that a given story contributes to the `updates` array: none
when the per-story call throws or reports no update. -/
def expectedEntry (perStory : Issue → Except Unit UpdateResult)
    (story : Issue) : Option StoryUpdateEntry :=
  match perStory story with
  | Except.ok r =>
    if r.updated then
      some { storyKey := story.key, oldStatus := r.oldStatus
             newStatus := r.newStatus, reason := r.reason }
    else none
  | Except.error _ => none

/-- The per-story call as composed in the source: fetching the story's
current status and related-task statuses may throw; on success the result
is that of `updateStoryStatusBasedOnTasks`. -/
def perStoryUpdate (env : Issue → Except Unit (String × List String))
    (story : Issue) : Except Unit UpdateResult :=
  match env story with
  | Except.error e => Except.error e
  | Except.ok (c, ts) => Except.ok (updateStoryStatusBasedOnTasks story.key c ts).1

/-- A directed issue link, reduced to the issue-type names of its optional
inward and outward issues (`none` when the side is absent). -/
structure IssueLink where
  inwardType : Option String
  outwardType : Option String
deriving Repr, DecidableEq

/-- The report returned by `validateProjectStructure`. -/
structure ValidationResult where
  isValid : Bool
  issues : List String
  warnings : List String
deriving Repr, DecidableEq

/-- `validateProjectStructure`, as a function of the fetched epic's key and
issue-type name, the issues linked to the epic, and the links of each
issue (the three external fetches of the source). -/
def validateProjectStructure (epicKey epicType : String)
    (epicIssues : List Issue) (links : String → List IssueLink) :
    ValidationResult :=
  let issues :=
    if epicType == "Epic" then []
    else [epicKey ++ " is not an Epic (type: " ++ epicType ++ ")"]
  let warnings1 :=
    if epicIssues.length == 0 then
      ["Epic " ++ epicKey ++ " has no linked stories or tasks"]
    else []
  let storyWarnings := epicIssues.filterMap (fun issue =>
    if issue.issuetype == "Story" then
      if ((links issue.key).filter (fun l =>
            l.inwardType == some "Task" || l.outwardType == some "Task")).length == 0 then
        some ("Story " ++ issue.key ++ " has no linked tasks")
      else none
    else none)
  { isValid := issues.length == 0
    issues := issues
    warnings := warnings1 ++ storyWarnings }

/-- Rank of the three recognized parent statuses in the forward-only
workflow order. -/
def statusRank : String → Nat
  | "To Do" => 0
  | "In Progress" => 1
  | "Done" => 2
  | _ => 0

theorem shouldBeDone_iff (s : TasksSummary) :
    shouldBeDone s = true ↔ 0 < s.total ∧ s.done = s.total := by
  simp [shouldBeDone]

theorem shouldBeInProgress_iff (s : TasksSummary) :
    shouldBeInProgress s = true ↔
      shouldBeDone s = false ∧ (0 < s.inProgress ∨ 0 < s.done) := by
  simp [shouldBeInProgress]

theorem shouldBeDone_false_of_inProgress (s : TasksSummary)
    (h : shouldBeInProgress s = true) : shouldBeDone s = false :=
  ((shouldBeInProgress_iff s).mp h).1

theorem shouldBeDone_false_iff (s : TasksSummary) :
    shouldBeDone s = false ↔ ¬(0 < s.total ∧ s.done = s.total) := by
  rw [← shouldBeDone_iff]
  simp

theorem shouldBeInProgress_iff_counts (s : TasksSummary) :
    shouldBeInProgress s = true ↔
      ¬(0 < s.total ∧ s.done = s.total) ∧ (0 < s.inProgress ∨ 0 < s.done) := by
  rw [shouldBeInProgress_iff, shouldBeDone_false_iff]

theorem determine_done (c : String) (s : TasksSummary)
    (h1 : shouldBeDone s = true) (h2 : c ≠ "Done") :
    determineTransition c s =
      some { targetStatus := "Done", transitionId := "31"
             reason := "All " ++ toString s.total ++ " related tasks are completed" } := by
  rw [determineTransition, if_pos]
  simp [h1, h2]

theorem determine_inprogress (c : String) (s : TasksSummary)
    (h1 : shouldBeInProgress s = true) (h2 : c = "To Do") :
    determineTransition c s =
      some { targetStatus := "In Progress", transitionId := "21"
             reason := toString (s.inProgress + s.done) ++ " of " ++ toString s.total
                       ++ " tasks are started/completed" } := by
  have hd : shouldBeDone s = false := shouldBeDone_false_of_inProgress s h1
  rw [determineTransition, if_neg, if_pos]
  · simp [h1, h2]
  · simp [hd]

theorem determine_none (c : String) (s : TasksSummary)
    (h1 : ¬(shouldBeDone s = true ∧ c ≠ "Done"))
    (h2 : ¬(shouldBeInProgress s = true ∧ c = "To Do")) :
    determineTransition c s = none := by
  rw [determineTransition, if_neg, if_neg]
  · simp only [Bool.and_eq_true, beq_iff_eq]
    exact fun hh => h2 ⟨hh.1, hh.2⟩
  · simp only [Bool.and_eq_true, Bool.not_eq_true', beq_eq_false_iff_ne]
    exact fun hh => h1 ⟨hh.1, hh.2⟩

theorem buckets_le (cs : List String) :
    (cs.filter (fun s => s == "Done")).length
      + (cs.filter (fun s => s == "In Progress")).length
      + (cs.filter (fun s => s == "To Do")).length ≤ cs.length := by
  induction cs with
  | nil => simp
  | cons c cs ih =>
    simp only [List.filter_cons, List.length_cons]
    by_cases h1 : c = "Done"
    · subst h1
      simp
      omega
    · by_cases h2 : c = "In Progress"
      · subst h2
        simp
        omega
      · by_cases h3 : c = "To Do"
        · subst h3
          simp
          omega
        · simp only [beq_iff_eq, if_neg h1, if_neg h2, if_neg h3]
          omega

theorem updated_ne (k c : String) (ts : List String)
    (h : (updateStoryStatusBasedOnTasks k c ts).1.updated = true) :
    (updateStoryStatusBasedOnTasks k c ts).1.newStatus
      ≠ (updateStoryStatusBasedOnTasks k c ts).1.oldStatus := by
  cases hd : determineTransition c (mkTasksSummary ts) with
  | none => simp [updateStoryStatusBasedOnTasks, hd] at h
  | some t =>
    cases ht : (t.targetStatus == c) with
    | true => simp [updateStoryStatusBasedOnTasks, hd, ht] at h
    | false =>
      simp only [updateStoryStatusBasedOnTasks, hd, ht, Bool.not_false, if_true]
      exact beq_eq_false_iff_ne.mp ht

theorem foldl_batchStep (g : Issue → Except Unit UpdateResult)
    (l : List Issue) (n : Nat) (ups : List StoryUpdateEntry) :
    l.foldl (batchStep g) (n, ups)
      = (n + (l.filterMap (expectedEntry g)).length,
         ups ++ l.filterMap (expectedEntry g)) := by
  induction l generalizing n ups with
  | nil => simp
  | cons st l ih =>
    simp only [List.foldl_cons, List.filterMap_cons]
    cases hg : g st with
    | ok r =>
      cases hu : r.updated with
      | true =>
        simp only [batchStep, hg, hu, if_true, expectedEntry, ih,
          List.length_cons, List.append_assoc, List.singleton_append,
          Prod.mk.injEq]
        exact ⟨by omega, trivial⟩
      | false =>
        simp [batchStep, hg, hu, expectedEntry, ih]
    | error e =>
      simp [batchStep, hg, expectedEntry, ih]

theorem splitNl_ne_nil (l : List Char) : splitNl l ≠ [] := by
  cases l with
  | nil => simp [splitNl]
  | cons c cs =>
    by_cases hc : c = '\n'
    · simp [splitNl, hc]
    · rw [show splitNl (c :: cs)
          = (match splitNl cs with | [] => [[c]] | g :: gs => (c :: g) :: gs) from by
        simp [splitNl, hc]]
      cases splitNl cs with
      | nil => simp
      | cons g gs => simp

theorem joinNl_splitNl (l : List Char) : joinNl (splitNl l) = l := by
  induction l with
  | nil => rfl
  | cons c cs ih =>
    by_cases hc : c = '\n'
    · subst hc
      rw [show splitNl ('\n' :: cs) = [] :: splitNl cs from by simp [splitNl]]
      cases hs : splitNl cs with
      | nil => exact absurd hs (splitNl_ne_nil cs)
      | cons g gs =>
        rw [hs] at ih
        show ([] : List Char) ++ '\n' :: joinNl (g :: gs) = '\n' :: cs
        rw [List.nil_append, ih]
    · rw [show splitNl (c :: cs)
          = (match splitNl cs with | [] => [[c]] | g :: gs => (c :: g) :: gs) from by
        simp [splitNl, hc]]
      cases hs : splitNl cs with
      | nil => exact absurd hs (splitNl_ne_nil cs)
      | cons g gs =>
        rw [hs] at ih
        cases gs with
        | nil =>
          show c :: g = c :: cs
          have hg : g = cs := ih
          rw [hg]
        | cons g2 gs2 =>
          show (c :: g) ++ '\n' :: joinNl (g2 :: gs2) = c :: cs
          rw [List.cons_append]
          have hj : g ++ '\n' :: joinNl (g2 :: gs2) = joinNl (g :: g2 :: gs2) := rfl
          rw [hj, ih]

theorem mem_of_mem_splitNl : ∀ {l line : List Char} {c : Char},
    line ∈ splitNl l → c ∈ line → c ∈ l := by
  intro l
  induction l with
  | nil =>
    intro line c hl hc
    simp [splitNl] at hl
    subst hl
    exact absurd hc (List.not_mem_nil c)
  | cons a cs ih =>
    intro line c hl hc
    by_cases ha : a = '\n'
    · subst ha
      rw [show splitNl ('\n' :: cs) = [] :: splitNl cs from by simp [splitNl]] at hl
      rcases List.mem_cons.mp hl with h | h
      · subst h
        exact absurd hc (List.not_mem_nil c)
      · exact List.mem_cons_of_mem _ (ih h hc)
    · rw [show splitNl (a :: cs)
          = (match splitNl cs with | [] => [[a]] | g :: gs => (a :: g) :: gs) from by
        simp [splitNl, ha]] at hl
      cases hs : splitNl cs with
      | nil =>
        rw [hs] at hl
        simp at hl
        subst hl
        rcases List.mem_cons.mp hc with h2 | h2
        · rw [h2]
          exact List.mem_cons_self a cs
        · exact absurd h2 (List.not_mem_nil c)
      | cons g gs =>
        rw [hs] at hl
        rcases List.mem_cons.mp hl with h | h
        · subst h
          rcases List.mem_cons.mp hc with h2 | h2
          · rw [h2]
            exact List.mem_cons_self a cs
          · exact List.mem_cons_of_mem _
              (ih (by rw [hs]; exact List.mem_cons_self g gs) h2)
        · exact List.mem_cons_of_mem _
            (ih (by rw [hs]; exact List.mem_cons_of_mem _ h) hc)

theorem map_id_of_fix (L : List (List Char)) (f : List Char → List Char)
    (h : ∀ x ∈ L, f x = x) : L.map f = L := by
  induction L with
  | nil => rfl
  | cons x xs ih =>
    rw [List.map_cons, h x (List.mem_cons_self x xs),
      ih (fun y hy => h y (List.mem_cons_of_mem x hy))]

theorem applyLinewise_id (f : List Char → List Char) (l : List Char)
    (hf : ∀ line ∈ splitNl l, f line = line) : applyLinewise f l = l := by
  rw [applyLinewise, map_id_of_fix _ f hf, joinNl_splitNl]

theorem h1Line_id (line : List Char) (h : '#' ∉ line) : h1Line line = line := by
  cases line with
  | nil => rfl
  | cons c rest =>
    have hc : c ≠ '#' := fun hh => h (hh ▸ List.mem_cons_self c rest)
    rw [h1Line.eq_def]
    split
    · rename_i heq
      injection heq with e1 e2
      exact absurd e1 hc
    · rfl

theorem h2Line_id (line : List Char) (h : '#' ∉ line) : h2Line line = line := by
  cases line with
  | nil => rfl
  | cons c rest =>
    have hc : c ≠ '#' := fun hh => h (hh ▸ List.mem_cons_self c rest)
    rw [h2Line.eq_def]
    split
    · rename_i heq
      injection heq with e1 e2
      exact absurd e1 hc
    · rfl

theorem h3Line_id (line : List Char) (h : '#' ∉ line) : h3Line line = line := by
  cases line with
  | nil => rfl
  | cons c rest =>
    have hc : c ≠ '#' := fun hh => h (hh ▸ List.mem_cons_self c rest)
    rw [h3Line.eq_def]
    split
    · rename_i heq
      injection heq with e1 e2
      exact absurd e1 hc
    · rfl

theorem listLine_id (line : List Char) (h : '-' ∉ line) : listLine line = line := by
  cases line with
  | nil => rfl
  | cons c rest =>
    have hc : c ≠ '-' := fun hh => h (hh ▸ List.mem_cons_self c rest)
    rw [listLine.eq_def]
    split
    · rename_i heq
      injection heq with e1 e2
      exact absurd e1 hc
    · rfl

theorem headers_fix (l : List Char) (h : '#' ∉ l) :
    applyLinewise h3Line (applyLinewise h2Line (applyLinewise h1Line l)) = l := by
  rw [applyLinewise_id h1Line l
    (fun line hl => h1Line_id line (fun hcl => h (mem_of_mem_splitNl hl hcl)))]
  rw [applyLinewise_id h2Line l
    (fun line hl => h2Line_id line (fun hcl => h (mem_of_mem_splitNl hl hcl)))]
  exact applyLinewise_id h3Line l
    (fun line hl => h3Line_id line (fun hcl => h (mem_of_mem_splitNl hl hcl)))

theorem lists_fix (l : List Char) (h : '-' ∉ l) : applyLinewise listLine l = l :=
  applyLinewise_id listLine l
    (fun line hl => listLine_id line (fun hcl => h (mem_of_mem_splitNl hl hcl)))

theorem boldGo_cons_ne (n : Nat) (c : Char) (cs : List Char) (hc : c ≠ '*') :
    boldGo (n + 1) (c :: cs) = c :: boldGo n cs := by
  rw [boldGo.eq_def]
  split
  · rename_i heq
    exact absurd heq (Nat.succ_ne_zero n)
  · rename_i m heq1 heq2
    exact List.noConfusion heq2
  · rename_i m ds heq1 heq2
    injection heq2 with e1 e2
    exact absurd e1 hc
  · rename_i m d ds hne heq1 heq2
    injection heq1 with e0
    injection heq2 with e1 e2
    rw [e0, e1, e2]

theorem boldGo_id (n : Nat) (l : List Char) (h : ∀ c ∈ l, c ≠ '*') :
    boldGo n l = l := by
  induction n generalizing l with
  | zero => rfl
  | succ n ih =>
    cases l with
    | nil => rfl
    | cons c cs =>
      rw [boldGo_cons_ne n c cs (h c (List.mem_cons_self c cs)),
        ih cs (fun d hd => h d (List.mem_cons_of_mem c hd))]

theorem inlineGo_cons_ne (n : Nat) (c : Char) (cs : List Char) (hc : c ≠ '\x60') :
    inlineGo (n + 1) (c :: cs) = c :: inlineGo n cs := by
  rw [inlineGo.eq_def]
  split
  · rename_i heq
    exact absurd heq (Nat.succ_ne_zero n)
  · rename_i m heq1 heq2
    exact List.noConfusion heq2
  · rename_i m ds heq1 heq2
    injection heq2 with e1 e2
    exact absurd e1 hc
  · rename_i m d ds hne heq1 heq2
    injection heq1 with e0
    injection heq2 with e1 e2
    rw [e0, e1, e2]

theorem inlineGo_id (n : Nat) (l : List Char) (h : ∀ c ∈ l, c ≠ '\x60') :
    inlineGo n l = l := by
  induction n generalizing l with
  | zero => rfl
  | succ n ih =>
    cases l with
    | nil => rfl
    | cons c cs =>
      rw [inlineGo_cons_ne n c cs (h c (List.mem_cons_self c cs)),
        ih cs (fun d hd => h d (List.mem_cons_of_mem c hd))]

theorem linkGo_cons_ne (n : Nat) (c : Char) (cs : List Char) (hc : c ≠ '[') :
    linkGo (n + 1) (c :: cs) = c :: linkGo n cs := by
  rw [linkGo.eq_def]
  split
  · rename_i heq
    exact absurd heq (Nat.succ_ne_zero n)
  · rename_i m heq1 heq2
    exact List.noConfusion heq2
  · rename_i m ds heq1 heq2
    injection heq2 with e1 e2
    exact absurd e1 hc
  · rename_i m d ds hne heq1 heq2
    injection heq1 with e0
    injection heq2 with e1 e2
    rw [e0, e1, e2]

theorem linkGo_id (n : Nat) (l : List Char) (h : ∀ c ∈ l, c ≠ '[') :
    linkGo n l = l := by
  induction n generalizing l with
  | zero => rfl
  | succ n ih =>
    cases l with
    | nil => rfl
    | cons c cs =>
      rw [linkGo_cons_ne n c cs (h c (List.mem_cons_self c cs)),
        ih cs (fun d hd => h d (List.mem_cons_of_mem c hd))]

theorem codeGo_nil (m : Nat) : codeGo m [] = [] := by
  cases m <;> rfl

theorem findCloseC_cons_ne (c d : Char) (Y : List Char)
    (hc : c ≠ '\x60') (hd : d ≠ '\x60') :
    findCloseC (c :: d :: Y) = (findCloseC (d :: Y)).map (fun p => (c :: p.1, p.2)) := by
  rw [findCloseC.eq_def]
  split
  · rename_i heq
    injection heq with e1 e2
    injection e2 with e3 e4
    exact absurd e3 hd
  · rename_i heq
    injection heq with e1 e2
    exact absurd e1 hc
  · rename_i c2 cs2 heq
    injection heq with e1 e2
    rw [e1, e2]
  · rename_i heq
    exact List.noConfusion heq

theorem findCloseC_body (body : List Char) (h : ∀ c ∈ body, c ≠ '\x60') :
    findCloseC (body ++ '\n' :: '\x60' :: '\x60' :: '\x60' :: []) = some (body, []) := by
  induction body with
  | nil => rfl
  | cons c rest ih =>
    have hc : c ≠ '\x60' := h c (List.mem_cons_self c rest)
    have hrest : ∀ d ∈ rest, d ≠ '\x60' := fun d hd => h d (List.mem_cons_of_mem c hd)
    cases rest with
    | nil =>
      rw [show (([c] : List Char) ++ '\n' :: '\x60' :: '\x60' :: '\x60' :: [])
          = c :: '\n' :: '\x60' :: '\x60' :: '\x60' :: [] from rfl]
      rw [findCloseC_cons_ne c '\n' _ hc (by decide)]
      rfl
    | cons d rest2 =>
      have hdne : d ≠ '\x60' := hrest d (List.mem_cons_self d rest2)
      rw [show ((c :: d :: rest2) ++ '\n' :: '\x60' :: '\x60' :: '\x60' :: [])
          = c :: d :: (rest2 ++ '\n' :: '\x60' :: '\x60' :: '\x60' :: []) from rfl]
      rw [findCloseC_cons_ne c d _ hc hdne]
      rw [show (d :: (rest2 ++ '\n' :: '\x60' :: '\x60' :: '\x60' :: []))
          = ((d :: rest2) ++ '\n' :: '\x60' :: '\x60' :: '\x60' :: []) from rfl]
      rw [ih hrest]
      rfl

theorem dropWhile_word_fence (tag r : List Char) (h : ∀ c ∈ tag, isWordChar c = true) :
    (tag ++ '\n' :: r).dropWhile isWordChar = '\n' :: r := by
  induction tag with
  | nil =>
    simp only [List.nil_append, List.dropWhile_cons]
    rw [show isWordChar '\n' = false from by decide]
    simp
  | cons t ts ih =>
    simp only [List.cons_append, List.dropWhile_cons]
    rw [h t (List.mem_cons_self t ts)]
    simp only [if_true]
    exact ih (fun c hc => h c (List.mem_cons_of_mem t hc))

theorem dropTagNl_fence (tag r : List Char) (htag : ∀ c ∈ tag, isWordChar c = true) :
    dropTagNl (tag ++ '\n' :: r) = r := by
  rw [dropTagNl, dropWhile_word_fence tag r htag]
  rfl

theorem codeGo_fence (m : Nat) (tag body : List Char)
    (htag : ∀ c ∈ tag, isWordChar c = true)
    (hbody : ∀ c ∈ body, c ≠ '\x60') :
    codeGo (m + 1) ('\x60' :: '\x60' :: '\x60' ::
        (tag ++ '\n' :: (body ++ '\n' :: '\x60' :: '\x60' :: '\x60' :: [])))
      = codeMark ++ body ++ codeMark := by
  simp only [codeGo]
  rw [dropTagNl_fence tag _ htag, findCloseC_body body hbody]
  show codeMark ++ body ++ codeMark ++ codeGo m [] = codeMark ++ body ++ codeMark
  rw [codeGo_nil m, List.append_nil]

/-- C1: for every parent work item and every list of linked Task children,
`analyzeStoryStatus` computes `total` as the number of children and `done`,
`inProgress`, `toDo` as the counts of children whose status name is exactly
`Done`, `In Progress`, `To Do`, and its flags satisfy
`shouldBeDone = (total > 0 AND done == total)` and
`shouldBeInProgress = (NOT shouldBeDone AND (inProgress > 0 OR done > 0))`;
children with any other status name contribute to `total` only. -/
theorem analyzeStoryStatus_spec (c : String) (cs : List String) :
    (analyzeStoryStatus c cs).tasksSummary.total = cs.length ∧
    (analyzeStoryStatus c cs).tasksSummary.done = cs.countP (fun s => s == "Done") ∧
    (analyzeStoryStatus c cs).tasksSummary.inProgress
        = cs.countP (fun s => s == "In Progress") ∧
    (analyzeStoryStatus c cs).tasksSummary.toDo = cs.countP (fun s => s == "To Do") ∧
    ((analyzeStoryStatus c cs).shouldBeDone = true ↔
      0 < cs.length ∧ cs.countP (fun s => s == "Done") = cs.length) ∧
    ((analyzeStoryStatus c cs).shouldBeInProgress = true ↔
      ¬(0 < cs.length ∧ cs.countP (fun s => s == "Done") = cs.length) ∧
      (0 < cs.countP (fun s => s == "In Progress")
        ∨ 0 < cs.countP (fun s => s == "Done"))) := by
  have hD := List.countP_eq_length_filter (p := fun s => s == "Done") cs
  have hI := List.countP_eq_length_filter (p := fun s => s == "In Progress") cs
  have hT := List.countP_eq_length_filter (p := fun s => s == "To Do") cs
  refine ⟨rfl, hD.symm, hI.symm, hT.symm, ?_, ?_⟩
  · rw [hD]
    exact shouldBeDone_iff (mkTasksSummary cs)
  · rw [hD, hI]
    exact shouldBeInProgress_iff_counts (mkTasksSummary cs)

/-- Witness for C1 at a concrete child distribution. -/
theorem analyzeStoryStatus_spec_witness :
    (analyzeStoryStatus "To Do" ["Done", "To Do"]).shouldBeInProgress = true :=
  (analyzeStoryStatus_spec "To Do" ["Done", "To Do"]).2.2.2.2.2.mpr (by decide)

/-- C2: the recommended transition is `Done` with identifier `31` and reason
`All <total> related tasks are completed` when `shouldBeDone` holds and the
parent is not already `Done`; otherwise `In Progress` with identifier `21`
and reason `<inProgress+done> of <total> tasks are started/completed` when
`shouldBeInProgress` holds and the parent is exactly `To Do`; otherwise no
transition is recommended. -/
theorem determineTransition_spec (c : String) (s : TasksSummary) :
    (shouldBeDone s = true → c ≠ "Done" →
      determineTransition c s =
        some { targetStatus := "Done", transitionId := "31"
               reason := "All " ++ toString s.total ++ " related tasks are completed" }) ∧
    (¬(shouldBeDone s = true ∧ c ≠ "Done") → shouldBeInProgress s = true → c = "To Do" →
      determineTransition c s =
        some { targetStatus := "In Progress", transitionId := "21"
               reason := toString (s.inProgress + s.done) ++ " of " ++ toString s.total
                         ++ " tasks are started/completed" }) ∧
    (¬(shouldBeDone s = true ∧ c ≠ "Done") → ¬(shouldBeInProgress s = true ∧ c = "To Do") →
      determineTransition c s = none) :=
  ⟨fun h1 h2 => determine_done c s h1 h2,
   fun _ h2 h3 => determine_inprogress c s h2 h3,
   fun h1 h2 => determine_none c s h1 h2⟩

/-- Witness for C2: one all-Done child recommends the `Done` transition. -/
theorem determineTransition_spec_witness :
    determineTransition "To Do" (mkTasksSummary ["Done"]) =
      some { targetStatus := "Done", transitionId := "31"
             reason := "All 1 related tasks are completed" } :=
  (determineTransition_spec "To Do" (mkTasksSummary ["Done"])).1 (by decide) (by decide)

/-- C3: the analysis satisfies `done + inProgress + toDo ≤ total` (children
in unrecognized statuses count in `total` only), `shouldBeDone` and
`shouldBeInProgress` are never both true, and with `total == 0` both are
false. -/
theorem statusAnalysis_invariants (c : String) (cs : List String) :
    (analyzeStoryStatus c cs).tasksSummary.done
        + (analyzeStoryStatus c cs).tasksSummary.inProgress
        + (analyzeStoryStatus c cs).tasksSummary.toDo
      ≤ (analyzeStoryStatus c cs).tasksSummary.total ∧
    ¬((analyzeStoryStatus c cs).shouldBeDone = true ∧
      (analyzeStoryStatus c cs).shouldBeInProgress = true) ∧
    ((analyzeStoryStatus c cs).tasksSummary.total = 0 →
      (analyzeStoryStatus c cs).shouldBeDone = false ∧
      (analyzeStoryStatus c cs).shouldBeInProgress = false) := by
  refine ⟨buckets_le cs, ?_, ?_⟩
  · rintro ⟨h1, h2⟩
    have h1' : shouldBeDone (mkTasksSummary cs) = true := h1
    have h2' : shouldBeInProgress (mkTasksSummary cs) = true := h2
    rw [shouldBeDone_false_of_inProgress _ h2'] at h1'
    exact Bool.noConfusion h1'
  · intro h0
    have hcs : cs = [] := List.length_eq_zero.mp h0
    subst hcs
    exact ⟨rfl, rfl⟩

/-- Witness for C3: the empty child set yields neither flag. -/
theorem statusAnalysis_invariants_witness :
    (analyzeStoryStatus "To Do" ([] : List String)).shouldBeDone = false ∧
    (analyzeStoryStatus "To Do" ([] : List String)).shouldBeInProgress = false :=
  (statusAnalysis_invariants "To Do" []).2.2 rfl

/-- C4: the induced parent state machine is forward-only: a `Done` parent
never receives a recommendation, an `In Progress` parent is only ever
recommended `Done`, and over the three recognized statuses every
recommendation strictly increases the workflow rank — never moving the
parent backward. -/
theorem forward_only_transitions (s : TasksSummary) (c : String) :
    determineTransition "Done" s = none ∧
    (∀ t, determineTransition "In Progress" s = some t → t.targetStatus = "Done") ∧
    (c = "To Do" ∨ c = "In Progress" ∨ c = "Done" →
      ∀ t, determineTransition c s = some t →
        statusRank c < statusRank t.targetStatus) := by
  refine ⟨?_, ?_, ?_⟩
  · simp [determineTransition]
  · intro t h
    rw [determineTransition] at h
    split_ifs at h with h1 h2
    · have ht := Option.some.inj h
      subst ht
      rfl
    · simp at h2
  · rintro (rfl | rfl | rfl) t h
    · rw [determineTransition] at h
      split_ifs at h with h1 h2
      · have ht := Option.some.inj h
        subst ht
        show statusRank "To Do" < statusRank "Done"
        decide
      · have ht := Option.some.inj h
        subst ht
        show statusRank "To Do" < statusRank "In Progress"
        decide
    · rw [determineTransition] at h
      split_ifs at h with h1 h2
      · have ht := Option.some.inj h
        subst ht
        show statusRank "In Progress" < statusRank "Done"
        decide
      · simp at h2
    · rw [determineTransition] at h
      split_ifs at h with h1 h2
      · simp at h1
      · simp at h2

/-- Witness for C4: with one Done child, a `To Do` parent is recommended a
strictly forward transition. -/
theorem forward_only_transitions_witness :
    statusRank "To Do" < statusRank "Done" :=
  (forward_only_transitions (mkTasksSummary ["Done"]) "To Do").2.2 (Or.inl rfl)
    { targetStatus := "Done", transitionId := "31"
      reason := "All 1 related tasks are completed" } (by decide)

/-- C9: when neither transition case applies, `updateStoryStatusBasedOnTasks`
performs no transition call and posts no comment, returning
`updated = false`, `newStatus = oldStatus =` the current status, and reason
`No status change needed`. -/
theorem no_transition_frame (k c : String) (ts : List String)
    (h1 : ¬(shouldBeDone (mkTasksSummary ts) = true ∧ c ≠ "Done"))
    (h2 : ¬(shouldBeInProgress (mkTasksSummary ts) = true ∧ c = "To Do")) :
    updateStoryStatusBasedOnTasks k c ts =
      ({ updated := false, oldStatus := c, newStatus := c
         reason := "No status change needed" }, ([] : List JiraAction)) := by
  have hd := determine_none c (mkTasksSummary ts) h1 h2
  simp [updateStoryStatusBasedOnTasks, hd]

/-- Witness for C9: an `In Progress` story with no related tasks is left
untouched. -/
theorem no_transition_frame_witness :
    updateStoryStatusBasedOnTasks "S-1" "In Progress" [] =
      ({ updated := false, oldStatus := "In Progress", newStatus := "In Progress"
         reason := "No status change needed" }, ([] : List JiraAction)) :=
  no_transition_frame "S-1" "In Progress" [] (by decide) (by decide)

/-- C7: for every per-story behaviour — including one that throws for some
stories — `updateAllStoryStatuses` reports `storiesChecked` equal to the
number of Story-type children, and its updates array collects exactly the
successful updated stories in order: a throwing story is skipped and every
subsequent story is still processed and reported. -/
theorem updateAllStoryStatuses_skips_failures
    (perStory : Issue → Except Unit UpdateResult) (epicIssues : List Issue) :
    (updateAllStoryStatuses perStory epicIssues).storiesChecked
        = (epicIssues.filter (fun i => i.issuetype == "Story")).length ∧
    (updateAllStoryStatuses perStory epicIssues).updates
        = (epicIssues.filter (fun i => i.issuetype == "Story")).filterMap
            (expectedEntry perStory) := by
  constructor
  · rfl
  · simp [updateAllStoryStatuses, foldl_batchStep]

/-- C10: the batch result satisfies `storiesUpdated = updates.length` and
`storiesUpdated ≤ storiesChecked`, and every recorded update has a
`newStatus` different from its `oldStatus`. -/
theorem batch_result_invariants (env : Issue → Except Unit (String × List String))
    (epicIssues : List Issue) :
    (updateAllStoryStatuses (perStoryUpdate env) epicIssues).storiesUpdated
        = (updateAllStoryStatuses (perStoryUpdate env) epicIssues).updates.length ∧
    (updateAllStoryStatuses (perStoryUpdate env) epicIssues).storiesUpdated
        ≤ (updateAllStoryStatuses (perStoryUpdate env) epicIssues).storiesChecked ∧
    (updateAllStoryStatuses (perStoryUpdate env) epicIssues).updates.all
        (fun e => !(e.newStatus == e.oldStatus)) = true := by
  have hfold := foldl_batchStep (perStoryUpdate env)
      (epicIssues.filter (fun i => i.issuetype == "Story")) 0 []
  refine ⟨?_, ?_, ?_⟩
  · simp [updateAllStoryStatuses, hfold]
  · simp only [updateAllStoryStatuses, hfold]
    simpa using List.length_filterMap_le
      (expectedEntry (perStoryUpdate env))
      (epicIssues.filter (fun i => i.issuetype == "Story"))
  · simp only [updateAllStoryStatuses, hfold, List.nil_append]
    rw [List.all_eq_true]
    intro e he
    obtain ⟨st, hst, hent⟩ := List.mem_filterMap.mp he
    cases hps : perStoryUpdate env st with
    | error u => simp [expectedEntry, hps] at hent
    | ok r =>
      cases hu : r.updated with
      | false => simp [expectedEntry, hps, hu] at hent
      | true =>
        simp only [expectedEntry, hps, hu, if_true] at hent
        cases henv : env st with
        | error u => simp [perStoryUpdate, henv] at hps
        | ok p =>
          obtain ⟨c, ts⟩ := p
          have hps' : (updateStoryStatusBasedOnTasks st.key c ts).1 = r := by
            have := hps
            rw [perStoryUpdate, henv] at this
            exact Except.ok.inj this
          have hne := updated_ne st.key c ts (by rw [hps']; exact hu)
          rw [hps'] at hne
          obtain rfl := Option.some.inj hent
          show (!(r.newStatus == r.oldStatus)) = true
          rw [beq_eq_false_iff_ne.mpr hne]
          rfl

/-- C8: a completed hierarchy-validation run satisfies
`isValid = (issues is empty)`, validity depends only on the root item's
type (warnings never affect it), a non-Epic-typed root yields
`isValid = false` with an issue string naming the mismatched type, and an
Epic-typed root with zero linked children yields `isValid = true` with a
warning recorded. -/
theorem validateProjectStructure_spec (epicKey epicType : String)
    (epicIssues : List Issue) (links : String → List IssueLink) :
    ((validateProjectStructure epicKey epicType epicIssues links).isValid = true ↔
        (validateProjectStructure epicKey epicType epicIssues links).issues = []) ∧
    ((validateProjectStructure epicKey epicType epicIssues links).isValid
        = (epicType == "Epic")) ∧
    (epicType ≠ "Epic" →
      (validateProjectStructure epicKey epicType epicIssues links).isValid = false ∧
      (epicKey ++ " is not an Epic (type: " ++ epicType ++ ")")
        ∈ (validateProjectStructure epicKey epicType epicIssues links).issues) ∧
    (epicType = "Epic" → epicIssues = [] →
      (validateProjectStructure epicKey epicType epicIssues links).isValid = true ∧
      ("Epic " ++ epicKey ++ " has no linked stories or tasks")
        ∈ (validateProjectStructure epicKey epicType epicIssues links).warnings) := by
  by_cases h : epicType = "Epic"
  · subst h
    refine ⟨?_, ?_, ?_, ?_⟩
    · simp [validateProjectStructure]
    · simp [validateProjectStructure]
    · intro hne
      exact absurd rfl hne
    · intro _ h0
      subst h0
      simp [validateProjectStructure]
  · have hb : (epicType == "Epic") = false := beq_eq_false_iff_ne.mpr h
    refine ⟨?_, ?_, ?_, ?_⟩
    · simp [validateProjectStructure, hb]
    · simp [validateProjectStructure, hb]
    · intro _
      constructor
      · simp [validateProjectStructure, hb]
      · simp [validateProjectStructure, hb]
    · intro he
      exact absurd he h

/-- Witness for C8: a Bug-typed root is reported invalid with an issue
naming the mismatched type. -/
theorem validateProjectStructure_spec_witness :
    (validateProjectStructure "E-1" "Bug" [] (fun _ => [])).isValid = false ∧
    ("E-1 is not an Epic (type: Bug)")
      ∈ (validateProjectStructure "E-1" "Bug" [] (fun _ => [])).issues :=
  (validateProjectStructure_spec "E-1" "Bug" [] (fun _ => [])).2.2.1 (by decide)

/-- C5: the transcoder maps the exact input double-asterisk-bold to the
single-asterisk span, and no later pipeline rule rewrites it further. -/
theorem transcode_bold_example : formatJiraText "**bold**" = "*bold*" := by decide

/-- C6 counterexample: on the fenced input whose contents hold the line
dash-space-y, the transcoded output is not the `\x7bcode\x7d` block with the
contents verbatim — the list rule, which runs after the fence conversion,
rewrites the inner line to asterisk-space-y. -/
theorem transcode_codeblock_not_verbatim :
    formatJiraText "\x60\x60\x60js\na\n- y\n\x60\x60\x60"
        = "\x7bcode\x7d" ++ "a\n* y" ++ "\x7bcode\x7d" ∧
    formatJiraText "\x60\x60\x60js\na\n- y\n\x60\x60\x60"
        ≠ "\x7bcode\x7d" ++ "a\n- y" ++ "\x7bcode\x7d" := by
  decide

/-- C6 amended: for every fenced code block input — triple-backtick fences,
an optional word-character language tag on the opening fence, and arbitrary
contents containing none of the marker characters the other pipeline rules
act on (no hash, asterisk, backtick, opening square bracket or dash) — the
transcoder returns a block delimited by the plain paired `\x7bcode\x7d` marker in
which the language tag is dropped and the inner contents are preserved
verbatim, including internal newlines. -/
theorem transcode_codeblock_neutral_contents (tag body : List Char)
    (htag : ∀ c ∈ tag, isWordChar c = true)
    (hbody : ∀ c ∈ body, c ≠ '#' ∧ c ≠ '*' ∧ c ≠ '\x60' ∧ c ≠ '[' ∧ c ≠ '-') :
    formatJiraText (String.mk ('\x60' :: '\x60' :: '\x60' ::
        (tag ++ '\n' :: (body ++ '\n' :: '\x60' :: '\x60' :: '\x60' :: []))))
      = String.mk (codeMark ++ body ++ codeMark) := by
  have hmemI : ∀ c ∈ ('\x60' :: '\x60' :: '\x60' ::
      (tag ++ '\n' :: (body ++ '\n' :: '\x60' :: '\x60' :: '\x60' :: []))),
      c = '\x60' ∨ c = '\n' ∨ c ∈ tag ∨ c ∈ body := by
    intro c hc
    simp only [List.mem_cons, List.mem_append] at hc
    tauto
  have htagNe : ∀ c ∈ tag, c ≠ '#' ∧ c ≠ '*' := by
    intro c hc
    have hw := htag c hc
    constructor
    · intro hh
      rw [hh] at hw
      exact absurd hw (by decide)
    · intro hh
      rw [hh] at hw
      exact absurd hw (by decide)
  have hHash : '#' ∉ ('\x60' :: '\x60' :: '\x60' ::
      (tag ++ '\n' :: (body ++ '\n' :: '\x60' :: '\x60' :: '\x60' :: []))) := by
    intro hin
    rcases hmemI '#' hin with h | h | h | h
    · exact absurd h (by decide)
    · exact absurd h (by decide)
    · exact absurd rfl (htagNe '#' h).1
    · exact absurd rfl (hbody '#' h).1
  have hStar : ∀ c ∈ ('\x60' :: '\x60' :: '\x60' ::
      (tag ++ '\n' :: (body ++ '\n' :: '\x60' :: '\x60' :: '\x60' :: []))),
      c ≠ '*' := by
    intro c hc hh
    rw [hh] at hc
    rcases hmemI '*' hc with h | h | h | h
    · exact absurd h (by decide)
    · exact absurd h (by decide)
    · exact absurd rfl (htagNe '*' h).2
    · exact absurd rfl (hbody '*' h).2.1
  have hbodyBt : ∀ c ∈ body, c ≠ '\x60' := fun c hc => (hbody c hc).2.2.1
  have hmemO : ∀ c ∈ (codeMark ++ body ++ codeMark), c ∈ codeMark ∨ c ∈ body := by
    intro c hc
    simp only [List.mem_append] at hc
    tauto
  have hcm : ∀ c ∈ codeMark, c ≠ '\x60' ∧ c ≠ '[' ∧ c ≠ '-' := by decide
  have hOBt : ∀ c ∈ (codeMark ++ body ++ codeMark), c ≠ '\x60' := by
    intro c hc
    rcases hmemO c hc with h | h
    · exact (hcm c h).1
    · exact (hbody c h).2.2.1
  have hOBr : ∀ c ∈ (codeMark ++ body ++ codeMark), c ≠ '[' := by
    intro c hc
    rcases hmemO c hc with h | h
    · exact (hcm c h).2.1
    · exact (hbody c h).2.2.2.1
  have hODash : '-' ∉ (codeMark ++ body ++ codeMark) := by
    intro hin
    rcases hmemO '-' hin with h | h
    · exact absurd rfl (hcm '-' h).2.2
    · exact absurd rfl (hbody '-' h).2.2.2.2
  simp only [formatJiraText]
  rw [headers_fix _ hHash]
  rw [boldGo_id _ _ hStar]
  rw [show ('\x60' :: '\x60' :: '\x60' ::
      (tag ++ '\n' :: (body ++ '\n' :: '\x60' :: '\x60' :: '\x60' :: []))).length
      = (tag ++ '\n' :: (body ++ '\n' :: '\x60' :: '\x60' :: '\x60' :: [])).length
          + 2 + 1 from rfl]
  rw [codeGo_fence _ tag body htag hbodyBt]
  rw [inlineGo_id _ _ hOBt]
  rw [linkGo_id _ _ hOBr]
  rw [lists_fix _ hODash]

/-- Witness for C6 amended: the spec's own example instantiates the tag
with `js` and the contents with `let x=1;`. -/
theorem transcode_codeblock_neutral_contents_witness :
    formatJiraText "\x60\x60\x60js\nlet x=1;\n\x60\x60\x60"
      = "\x7bcode\x7dlet x=1;\x7bcode\x7d" := by
  have h := transcode_codeblock_neutral_contents ['j', 's']
      ['l', 'e', 't', ' ', 'x', '=', '1', ';'] (by decide) (by decide)
  exact h

end Jira
